import Mathlib

/-!
Verification development for the Task Explorer VS Code extension
(caikuner/vscode-taskexplorer), shallowly embedding the file-discovery
cache module (`src/cache.ts`), the provider base class (`provider.ts`)
and the pipenv provider (`pipenv.ts`).

Modelling conventions:
* A VS Code `Uri` is modelled by its two string views used in the code
  (`path` and `fsPath`); a `WorkspaceFolder` by its name.
* A JavaScript `Set` of `ICacheItem`s is modelled as a `List ICacheItem`
  in insertion order.  Every insertion in the source creates a fresh
  object literal, and a JS `Set` deduplicates by object identity only,
  so an insertion always appends a new element; `Set.prototype.delete`
  removes exactly one element per call, which over a collected list of
  matches amounts to erasing each collected value once.
* The `filesCache` `Map` is modelled as an association list in insertion
  order (`Map.set` overwrites in place, new keys are appended).
* `async` functions are sequentialized; `await util.timeout(..)` sleeps
  are modelled where their durations matter (waitForCache).  Reads of
  the module-level `cancel` flag may observe a concurrent
  `cancelBuildCache`; each read consumes a tick of an external oracle
  `ext : Nat → Bool` indexed by a tick counter carried in the state
  (`ext t = true` means an external `cancel = true` write has landed by
  read number `t`).
-/

/-- Model of a VS Code `Uri`: only the `path` and `fsPath` string views are
used by the embedded code. -/
structure Uri where
  path : String
  fsPath : String
deriving DecidableEq

/-- Model of a VS Code `WorkspaceFolder`. -/
structure WorkspaceFolder where
  name : String
deriving DecidableEq

/-- Source `src/cache.ts`, interface `ICacheItem`: pairs a file URI with its
owning workspace folder. -/
structure ICacheItem where
  uri : Uri
  folder : WorkspaceFolder
deriving DecidableEq

/-- Model of `filesCache : Map<string, Set<ICacheItem>>`: association list in
insertion order; each `Set` is a list in insertion order. -/
abbrev FilesCache : Type := List (String × List ICacheItem)

/-- Model of `Map.prototype.get`: first (unique) entry with the given key. -/
def fcGet (fc : FilesCache) (k : String) : Option (List ICacheItem) :=
  match fc with
  | [] => none
  | e :: rest => if e.1 = k then some e.2 else fcGet rest k

/-- Model of `Map.prototype.has`. -/
def fcHas (fc : FilesCache) (k : String) : Bool :=
  match fc with
  | [] => false
  | e :: rest => if e.1 = k then true else fcHas rest k

/-- Replace the value stored under an existing key, keeping insertion order. -/
def fcReplace (fc : FilesCache) (k : String) (v : List ICacheItem) : FilesCache :=
  fc.map (fun e => if e.1 = k then (k, v) else e)

/-- Model of `Map.prototype.set`: overwrite in place if the key exists,
append otherwise. -/
def fcSet (fc : FilesCache) (k : String) (v : List ICacheItem) : FilesCache :=
  if fcHas fc k then fcReplace fc k v else fc ++ [(k, v)]

/-- Membership list of the set stored under a key (empty when no set exists). -/
def fcItems (fc : FilesCache) (k : String) : List ICacheItem :=
  (fcGet fc k).getD []

/-- Source `src/cache.ts`, `addFileToCache`: ensure a set exists for the task
alias, then insert a fresh `ICacheItem` pairing the uri with its owning
workspace folder, but only when both the set and the owning folder exist.
`gwf` models `workspace.getWorkspaceFolder`. -/
def addFileToCache (gwf : Uri → Option WorkspaceFolder) (fc : FilesCache)
    (taskAlias : String) (uri : Uri) : FilesCache :=
  let fc := if (fcGet fc taskAlias).isNone then fcSet fc taskAlias [] else fc
  match fcGet fc taskAlias, gwf uri with
  | some taskCache, some wsf => fcSet fc taskAlias (taskCache ++ [⟨uri, wsf⟩])
  | _, _ => fc

/-- Source `src/cache.ts`, `removeFileFromCache`: collect every item of the
set whose `uri.fsPath` equals the given uri's `fsPath`, then delete each
collected item; no-op when no set is stored under the alias. -/
def removeFileFromCache (fc : FilesCache) (taskAlias : String) (uri : Uri) :
    FilesCache :=
  match fcGet fc taskAlias with
  | none => fc
  | some itemCache =>
      let toRemove := itemCache.filter (fun it => it.uri.fsPath == uri.fsPath)
      fcSet fc taskAlias (toRemove.foldl (fun acc tr => acc.erase tr) itemCache)

/-- Environment of the cache module: the configuration reads, provider
registry lookups and VS Code workspace API calls made by `src/cache.ts`. -/
structure CacheEnv where
  taskProviders : List String
  isExternal : String → Bool
  enabled : String → Bool
  isWatchTask : String → Bool
  providerGlob : String → Option String
  utilGlob : String → String
  getTaskProviderType : String → String
  workspaceFolders : Option (List WorkspaceFolder)
  findFiles : WorkspaceFolder → String → List Uri
  isExcluded : String → Bool

/-- Module-level mutable state of `src/cache.ts`: the three booleans, the
`taskGlobs` object, and `filesCache`.  `tick` is the model's counter of
reads of the `cancel` flag, indexing the external-cancellation oracle. -/
structure CacheState where
  cacheBuilding : Bool
  folderCaching : Bool
  cancel : Bool
  taskGlobs : List (String × String)
  filesCache : FilesCache
  tick : Nat
deriving DecidableEq

/-- Property read `taskGlobs[taskType]` on the plain `taskGlobs` object. -/
def lookupGlob : List (String × String) → String → Option String
  | [], _ => none
  | e :: rest, k => if e.1 = k then some e.2 else lookupGlob rest k

/-- Property write `taskGlobs[taskType] = fileGlob`. -/
def setGlobEntry (gs : List (String × String)) (k v : String) :
    List (String × String) :=
  if (lookupGlob gs k).isSome then
    gs.map (fun e => if e.1 = k then (k, v) else e)
  else gs ++ [(k, v)]

/-- One read of the module-level `cancel` flag: the value observed is the
stored flag or an external `cancelBuildCache` write that has landed by this
tick; the observation persists in the stored flag. -/
def readCancel (ext : Nat → Bool) (s : CacheState) : Bool × CacheState :=
  let c := s.cancel || ext s.tick
  (c, { s with cancel := c, tick := s.tick + 1 })

/-- Source `src/cache.ts`, `cancelInternal`: resets `cacheBuilding` and
`cancel` only when this `buildCache` call owns the flag
(`setCacheBuilding`); the status-bar disposal has no modelled state. -/
def cancelInternal (setCacheBuilding : Bool) (s : CacheState) : CacheState :=
  if setCacheBuilding then { s with cacheBuilding := false, cancel := false } else s

/-- Source `src/cache.ts`, the path loop of `buildFolderCache`: for each found
file, first check `cancel` (cancelling returns early), then add the
non-excluded file to the set.  Returns the updated set, the updated state and
whether the scan was cancelled. -/
def scanPaths (env : CacheEnv) (ext : Nat → Bool) (setCB : Bool)
    (folder : WorkspaceFolder) :
    List Uri → List ICacheItem → CacheState → List ICacheItem × CacheState × Bool
  | [], fC, s => (fC, s, false)
  | p :: rest, fC, s =>
      let rc := readCancel ext s
      if rc.1 then (fC, cancelInternal setCB rc.2, true)
      else if !env.isExcluded p.path then
        scanPaths env ext setCB folder rest (fC ++ [⟨p, folder⟩]) rc.2
      else
        scanPaths env ext setCB folder rest fC rc.2

/-- Source `src/cache.ts`, `buildFolderCache`: external providers are not
scanned (only a timeout); otherwise scan the files found for the glob. -/
def buildFolderCache (env : CacheEnv) (ext : Nat → Bool) (fC : List ICacheItem)
    (folder : WorkspaceFolder) (taskType fileGlob : String) (setCB : Bool)
    (s : CacheState) : List ICacheItem × CacheState × Bool :=
  if !(env.isExternal taskType) then
    scanPaths env ext setCB folder (env.findFiles folder fileGlob) fC s
  else (fC, s, false)

/-- Source `src/cache.ts`, the folder loop of `buildFolderCaches`: an early
return inside one folder's scan does not stop the loop over folders. -/
def foldersGo (env : CacheEnv) (ext : Nat → Bool) (taskType fileGlob : String)
    (setCB : Bool) :
    List WorkspaceFolder → List ICacheItem → CacheState → List ICacheItem × CacheState
  | [], fC, s => (fC, s)
  | f :: fs, fC, s =>
      let r := buildFolderCache env ext fC f taskType fileGlob setCB s
      foldersGo env ext taskType fileGlob setCB fs r.1 r.2.1

/-- Source `src/cache.ts`, `buildFolderCaches`: scan every workspace folder
(skipped entirely when `workspace.workspaceFolders` is undefined). -/
def buildFolderCaches (env : CacheEnv) (ext : Nat → Bool) (fC : List ICacheItem)
    (taskType fileGlob : String) (setCB : Bool) (s : CacheState) :
    List ICacheItem × CacheState :=
  foldersGo env ext taskType fileGlob setCB (env.workspaceFolders.getD []) fC s

/-- Source `src/cache.ts`, `buildCache`: ensure a set exists for the task
alias, clear it when a stored (truthy) glob for this task type changed (never
for the `script` alias), record the glob, scan either the whole workspace or
one folder, and reset `cancel`/`cacheBuilding` when this call owns the flag.
The JS `Set` is mutated through the reference `fCache`; the model threads the
list and writes it back. -/
def buildCache (env : CacheEnv) (ext : Nat → Bool) (taskType fileGlob : String)
    (wsFolder : Option WorkspaceFolder) (setCB : Bool) (s : CacheState) :
    CacheState :=
  let taskAlias := env.getTaskProviderType taskType
  let s := if (fcGet s.filesCache taskAlias).isNone then
             { s with filesCache := fcSet s.filesCache taskAlias [] } else s
  let fC := (fcGet s.filesCache taskAlias).getD []
  let s := if setCB then { s with cacheBuilding := true } else s
  let fC := match lookupGlob s.taskGlobs taskType with
            | some g =>
                if g ≠ "" && taskAlias ≠ "script" && g ≠ fileGlob then [] else fC
            | none => fC
  let s := { s with taskGlobs := setGlobEntry s.taskGlobs taskType fileGlob }
  let r := match wsFolder with
           | none => buildFolderCaches env ext fC taskType fileGlob setCB s
           | some f =>
               let r3 := buildFolderCache env ext fC f taskType fileGlob setCB s
               (r3.1, r3.2.1)
  let s := { r.2 with filesCache := fcSet r.2.filesCache taskAlias r.1 }
  if setCB then { s with cancel := false, cacheBuilding := false } else s

/-- Effective glob chosen for a provider in `addFolderToCache`: the provider's
own glob pattern for non-watch tasks, falling back to `util.getGlobPattern`
when that is absent or falsy. -/
def effectiveGlob (env : CacheEnv) (providerName : String) : String :=
  let glob := if !env.isWatchTask providerName then env.providerGlob providerName
              else none
  match glob with
  | some g => if g = "" then env.utilGlob providerName else g
  | none => env.utilGlob providerName

/-- Source `src/cache.ts`, the provider loop of `addFolderToCache`: for each
(sorted) provider name, when the cancel flag is unset and the provider is
external or enabled, build its cache with `setCacheBuilding = false`. -/
def providerLoop (env : CacheEnv) (ext : Nat → Bool) :
    List String → Option WorkspaceFolder → CacheState → CacheState
  | [], _, s => s
  | p :: rest, folder, s =>
      let rc := readCancel ext s
      if !rc.1 && (env.isExternal p || env.enabled p) then
        providerLoop env ext rest folder
          (buildCache env ext p (effectiveGlob env p) folder false rc.2)
      else
        providerLoop env ext rest folder rc.2

/-- Flag writes at the top of `addFolderToCache` (after the waits, before any
provider is scanned). -/
def addFolderToCacheEntry (s : CacheState) : CacheState :=
  { s with folderCaching := true, cacheBuilding := true }

/-- Flag writes at the bottom of `addFolderToCache`, executed on every exit
path: both flags are cleared, then `cancel` is cleared. -/
def addFolderToCacheExit (s : CacheState) : CacheState :=
  { s with cacheBuilding := false, folderCaching := false, cancel := false }

/-- Source `src/cache.ts`, `addFolderToCache`: wait for running builds (the
waits only sleep, see `waitForCacheGo`), set both flags, loop over the task
providers, then clear both flags and the cancel flag. -/
def addFolderToCache (env : CacheEnv) (ext : Nat → Bool)
    (folder : Option WorkspaceFolder) (s : CacheState) : CacheState :=
  addFolderToCacheExit
    (providerLoop env ext env.taskProviders folder (addFolderToCacheEntry s))

/-- Source `src/cache.ts`, `rebuildCache`: clear the `filesCache` map, then
scan the entire workspace. -/
def rebuildCache (env : CacheEnv) (ext : Nat → Bool) (s : CacheState) :
    CacheState :=
  addFolderToCache env ext none { s with filesCache := [] }

/-- Source `src/cache.ts`, `cancelBuildCache`: return immediately when no
cache build is in progress, otherwise set the cancel flag (the optional wait
loop only sleeps and decrements a local counter). -/
def cancelBuildCache (s : CacheState) : CacheState :=
  if !s.cacheBuilding then s else { s with cancel := true }

/-- Source `src/cache.ts`, `isCachingBusy`. -/
def isCachingBusy (s : CacheState) : Bool :=
  s.cacheBuilding || s.folderCaching

/-- Busy condition of the `waitForCache` polling loop. -/
def cacheFlagsBusy (s : CacheState) : Bool :=
  s.cacheBuilding || s.folderCaching

/-- Source `src/cache.ts`, `waitForCache`: poll the flags over an external
trace of states (`trace n` is the module state at the n-th poll), sleeping
100 ms between polls; the function reads the flags and sleeps but writes
nothing.  Returns the index of the successful poll and the list of sleep
durations, or `none` when the fuel runs out while still busy. -/
def waitForCacheGo (trace : Nat → CacheState) :
    Nat → Nat → Option (Nat × List Nat)
  | i, 0 => if cacheFlagsBusy (trace i) then none else some (i, [])
  | i, Nat.succ fuel =>
      if cacheFlagsBusy (trace i) then
        (waitForCacheGo trace (i + 1) fuel).map (fun r => (r.1, 100 :: r.2))
      else some (i, [])

/-- Disjunction of the external-cancellation oracle over ticks
`t0, t0+1, ..., t0+j`. -/
def extAny (ext : Nat → Bool) (t0 : Nat) : Nat → Bool
  | 0 => ext t0
  | j + 1 => ext t0 || extAny ext (t0 + 1) j

/-- The cancel value observed by the `j`-th read of `cancel` performed from
state `s`: the stored flag, or any external write landing by that read. -/
def effCancelBy (ext : Nat → Bool) (s : CacheState) (j : Nat) : Bool :=
  s.cancel || extAny ext s.tick j

/-- The items the path loop adds for a list of found files: one fresh
`ICacheItem` per non-excluded path, in order. -/
def eligAdds (env : CacheEnv) (folder : WorkspaceFolder) : List Uri → List ICacheItem
  | [] => []
  | p :: ps =>
      if !env.isExcluded p.path then ⟨p, folder⟩ :: eligAdds env folder ps
      else eligAdds env folder ps

/-- Model of the VS Code `TaskGroup` constants. -/
inductive TaskGroupM
  | Build
  | Clean
  | Rebuild
  | Test
deriving DecidableEq

/-- Source `taskDefinition.ts`, `TaskExplorerDefinition` (the fields the
pipenv provider populates). -/
structure TaskExplorerDefinition where
  type : String
  script : Option String
  target : Option String
  path : String
  fileName : String
  uri : Option Uri
deriving DecidableEq

/-- Model of a VS Code `ShellExecution`: command, arguments, working dir. -/
structure ShellExecutionM where
  command : String
  args : List String
  cwd : String
deriving DecidableEq

/-- Model of a VS Code `Task` as constructed by the pipenv provider. -/
structure TaskM where
  definition : TaskExplorerDefinition
  scope : WorkspaceFolder
  name : String
  source : String
  execution : ShellExecutionM
  problemMatchers : List String
  group : Option TaskGroupM
deriving DecidableEq

/-- Model of the bombadil TOML reader result: the `[scripts]` section as an
entry list in document order, when present. -/
structure TomlResult where
  scripts : Option (List (String × String))

/-- Environment of the provider layer: workspace lookups, configuration
values, filesystem reads, the TOML reader, and the provider's abstract
`readUriTasks` method (a field, since the base class dispatches to the
concrete provider). -/
structure ProviderEnv where
  getWorkspaceFolder : Uri → Option WorkspaceFolder
  workspaceFolders : Option (List WorkspaceFolder)
  readFileSync : String → String
  readToml : String → Option TomlResult
  pathToPipenv : String
  pythonPathSetting : Option String
  isExcluded : String → Bool
  pathExists : String → Bool
  enabled : Bool
  excludeSetting : List String
  dirname : String → String
  basename : String → String
  getRelativePath : WorkspaceFolder → Uri → String
  readUriTasksF : Uri → List TaskM

namespace PipenvTaskProvider

/-- Source `pipenv.ts`, `getDefaultDefinition`. -/
def getDefaultDefinition (env : ProviderEnv) (target : String)
    (folder : WorkspaceFolder) (uri : Uri) : TaskExplorerDefinition :=
  { type := "pipenv", script := some target, target := some target,
    path := env.getRelativePath folder uri,
    fileName := env.basename uri.path, uri := some uri }

/-- Source `pipenv.ts`, `createTask`: when `pathToPipenv` is the default
value, run pipenv as a module of the configured (or default) python;
otherwise run the configured pipenv directly. -/
def createTask (env : ProviderEnv) (target _cmd : String)
    (folder : WorkspaceFolder) (uri : Uri) : TaskM :=
  let pipenv := env.pathToPipenv
  let pythonPath : Option String :=
    if pipenv = "pipenv" then some (env.pythonPathSetting.getD "python") else none
  let tdef := getDefaultDefinition env target folder uri
  let cwd := env.dirname uri.fsPath
  let args := ["run", target]
  let args := match pythonPath with
              | some _ => ["-m", "pipenv"] ++ args
              | none => args
  { definition := tdef, scope := folder, name := target, source := "pipenv",
    execution := { command := pythonPath.getD pipenv, args := args, cwd := cwd },
    problemMatchers := ["$msCompile"], group := none }

/-- Source `pipenv.ts`, `findTargets`: read the Pipfile, parse it as TOML and
collect the names of the entries of the `[scripts]` section (an undefined
result or missing section yields no entries). -/
def findTargets (env : ProviderEnv) (fsPath : String) : List String :=
  let contents := env.readFileSync fsPath
  let pipfile := env.readToml contents
  ((pipfile.bind TomlResult.scripts).getD []).map Prod.fst

/-- Source `pipenv.ts`, `readUriTasks`: one `Task` per script of the Pipfile
at the uri, each in the `Build` group, when the uri has an owning workspace
folder (the `if (scripts)` test in the source is always true: an array is
truthy). -/
def readUriTasks (env : ProviderEnv) (uri : Uri) : List TaskM :=
  match env.getWorkspaceFolder uri with
  | none => []
  | some folder =>
      let scripts := findTargets env uri.fsPath
      scripts.map (fun s => { createTask env s s folder uri with
                               group := some TaskGroupM.Build })

end PipenvTaskProvider

namespace TaskExplorerProvider

/-- Per-provider instance state from `provider.ts`: the cached task list,
the invalidation re-entrancy flag, and the queued uris. -/
structure State where
  cachedTasks : Option (List TaskM)
  invalidating : Bool
  queue : List Uri
deriving DecidableEq

/-- Eligibility of a cache item in the `readTasks` loops, independent of the
visited set: not excluded, and (in the base class, `chk = true`) the path
exists. -/
def eligItem (env : ProviderEnv) (chk : Bool) (it : ICacheItem) : Bool :=
  !env.isExcluded it.uri.path && (!chk || env.pathExists it.uri.fsPath)

/-- Source `provider.ts` / `pipenv.ts`, the shared loop body of `readTasks`:
walk the cache set in order; for each item that is not excluded, whose
`fsPath` was not visited yet and (when `chk`, i.e. in the base class) whose
path exists, mark the path visited, read the file's tasks and append them.
Returns the collected tasks and the list of items for which `readUriTasks`
was invoked, in order. -/
def readTasksGo (env : ProviderEnv) (chk : Bool) :
    List ICacheItem → List String → List TaskM × List ICacheItem
  | [], _ => ([], [])
  | it :: rest, visited =>
      if !env.isExcluded it.uri.path && !visited.contains it.uri.fsPath
          && (!chk || env.pathExists it.uri.fsPath) then
        let r := readTasksGo env chk rest (it.uri.fsPath :: visited)
        (env.readUriTasksF it.uri ++ r.1, it :: r.2)
      else readTasksGo env chk rest visited

/-- Source `provider.ts`, `readTasks`: nothing is read when the provider is
disabled or no cache set exists for it. -/
def readTasks (env : ProviderEnv) (fc : FilesCache) (providerName : String) :
    List TaskM :=
  if env.enabled && (fcGet fc providerName).isSome then
    (readTasksGo env true ((fcGet fc providerName).getD []) []).1
  else []

/-- Source `provider.ts`, `provideTasks`: compute and store the task list
only when no cached list exists.  The third component records whether
`readTasks` was invoked. -/
def provideTasks (env : ProviderEnv) (fc : FilesCache) (providerName : String)
    (st : State) : List TaskM × State × Bool :=
  match st.cachedTasks with
  | some ts => (ts, st, false)
  | none =>
      let ts := readTasks env fc providerName
      (ts, { st with cachedTasks := some ts }, true)

/-- Source `provider.ts`, the body of one `invalidate` call (after the
queue-push fast path, with `invalidating` already set): with no uri the
cached list is dropped; with a uri the tasks of that file (and of vanished
files) are collected and removed one by one, the file re-read when it exists
and is not excluded, or removed from the file cache when it does not exist;
an empty resulting list is stored as `undefined`. -/
def invalidateBody (env : ProviderEnv) (providerName : String)
    (st1 : State) (fc : FilesCache) (uriOpt : Option Uri) : State × FilesCache :=
  match st1.cachedTasks, uriOpt with
  | none, _ => (st1, fc)
  | some _, none => ({ st1 with cachedTasks := none }, fc)
  | some ct, some u =>
      let pathEx := env.pathExists u.fsPath
      let isRm : TaskM → Bool := fun t =>
        match t.definition.uri with
        | some du => du.fsPath == u.fsPath || !env.pathExists du.fsPath
        | none => false
      let rmvTasks := ct.filter isRm
      let ct2 := rmvTasks.foldl (fun (acc : List TaskM) tr => acc.erase tr) ct
      let r2 :=
        if pathEx && !(env.excludeSetting.contains u.path) then
          (ct2 ++ env.readUriTasksF u, fc)
        else if !pathEx then
          (ct2, removeFileFromCache fc providerName u)
        else (ct2, fc)
      ({ st1 with cachedTasks :=
           if r2.1.length > 0 then some r2.1 else none }, r2.2)

/-- Source `provider.ts`, `invalidate` together with `processQueue`: a call
with a uri while invalidating only queues the uri; otherwise the body runs
with `invalidating` set, `invalidating` is cleared, and queued uris are
processed recursively; `fuel` bounds the recursion (any
`fuel > queue.length` is enough, since each step consumes one queued
uri). -/
def invalidateGo (env : ProviderEnv) (providerName : String) :
    Nat → State → FilesCache → Option Uri → State × FilesCache
  | 0, st, fc, _ => (st, fc)
  | fuel + 1, st, fc, uriOpt =>
      if uriOpt.isSome && st.invalidating then
        ({ st with queue := st.queue ++ uriOpt.toList }, fc)
      else
        let r := invalidateBody env providerName
          { st with invalidating := true } fc uriOpt
        let st2 := { r.1 with invalidating := false }
        match st2.queue with
        | [] => (st2, r.2)
        | u :: restQ =>
            invalidateGo env providerName fuel { st2 with queue := restQ }
              r.2 (some u)

end TaskExplorerProvider

namespace PipenvTaskProvider

/-- Source `pipenv.ts`, `readTasks`: same loop as the base class but without
the path-existence test, dispatching to the pipenv `readUriTasks`, and
guarded by `workspace.workspaceFolders` being defined and a cache set
existing for `pipenv`. -/
def readTasks (env : ProviderEnv) (fc : FilesCache) : List TaskM :=
  let envSelf := { env with readUriTasksF := fun u => readUriTasks env u }
  if env.workspaceFolders.isSome && (fcGet fc "pipenv").isSome then
    (TaskExplorerProvider.readTasksGo envSelf false
      ((fcGet fc "pipenv").getD []) []).1
  else []

end PipenvTaskProvider

/-- Items kept by the `readTasks` loops: first occurrence per `fsPath` among
those not already seen. -/
def dedupByFirst (seen : List String) : List ICacheItem → List ICacheItem
  | [] => []
  | it :: rest =>
      if seen.contains it.uri.fsPath then dedupByFirst seen rest
      else it :: dedupByFirst (it.uri.fsPath :: seen) rest

/-! Concrete fixtures used to evaluate the model on closed inputs. -/

/-- Fixture uri. -/
def uW1 : Uri := ⟨"/proj/a.sh", "/proj/a.sh"⟩

/-- Fixture uri. -/
def uW2 : Uri := ⟨"/proj/b.sh", "/proj/b.sh"⟩

/-- Fixture workspace folder. -/
def wfW : WorkspaceFolder := ⟨"proj"⟩

/-- Fixture `getWorkspaceFolder` that owns every uri. -/
def gwfW : Uri → Option WorkspaceFolder := fun _ => some wfW

/-- Fixture files cache with one duplicated item. -/
def fcW : FilesCache := [("script", [⟨uW1, wfW⟩, ⟨uW2, wfW⟩, ⟨uW1, wfW⟩])]

/-- Fixture busy module state. -/
def busyW : CacheState := ⟨true, false, false, [], [], 0⟩

/-- Fixture idle module state. -/
def idleW : CacheState := ⟨false, false, false, [], [], 0⟩

/-- Fixture flag trace: busy for two polls, then idle. -/
def traceW : Nat → CacheState := fun n => if n < 2 then busyW else idleW

/-- Fixture external-cancel oracle: a cancel write lands at read 1. -/
def extW : Nat → Bool := fun t => t == 1

/-- Fixture cache environment. -/
def envCW : CacheEnv :=
  ⟨["npm"], fun _ => false, fun _ => true, fun _ => false,
   fun _ => none, fun _ => "**/*", fun a => a, some [wfW],
   fun _ _ => [uW1, uW2], fun _ => false⟩

/-- Fixture TOML result with two scripts. -/
def tomlW : TomlResult := ⟨some [("hello", "echo hello"), ("world", "ls")]⟩

/-- Fixture provider environment. -/
def envPW : ProviderEnv :=
  ⟨fun _ => some wfW, some [wfW], fun _ => "contents",
   fun _ => some tomlW, "pipenv", none, fun _ => false, fun _ => true, true, [],
   fun p => p, fun p => p, fun _ _ => "", fun _ => []⟩

/-- Fixture provider environment whose Pipfile has no scripts section. -/
def envPW2 : ProviderEnv := { envPW with readToml := fun _ => some ⟨none⟩ }
theorem fcSet_cons_ne (e : String × List ICacheItem) (rest : FilesCache)
    (k : String) (v : List ICacheItem) (h : e.1 ≠ k) :
    fcSet (e :: rest) k v = e :: fcSet rest k v := by
  unfold fcSet
  have hh : fcHas (e :: rest) k = fcHas rest k := by simp [fcHas, h]
  rw [hh]
  by_cases hr : fcHas rest k
  · rw [if_pos hr, if_pos hr]
    simp [fcReplace, h]
  · rw [if_neg hr, if_neg hr]
    simp

theorem fcGet_fcSet_self (fc : FilesCache) (k : String) (v : List ICacheItem) :
    fcGet (fcSet fc k v) k = some v := by
  induction fc with
  | nil => simp [fcSet, fcHas, fcGet]
  | cons e rest ih =>
      by_cases h : e.1 = k
      · unfold fcSet
        have hh : fcHas (e :: rest) k = true := by simp [fcHas, h]
        rw [if_pos hh]
        simp [fcReplace, fcGet, h]
      · rw [fcSet_cons_ne e rest k v h]
        simp [fcGet, h, ih]

theorem fcGet_fcReplace_ne (fc : FilesCache) (k k' : String)
    (v : List ICacheItem) (h : k' ≠ k) :
    fcGet (fcReplace fc k v) k' = fcGet fc k' := by
  induction fc with
  | nil => rfl
  | cons e rest ih =>
      by_cases he : e.1 = k
      · have h2 : e.1 ≠ k' := by rw [he]; exact Ne.symm h
        simp only [fcReplace, List.map_cons, if_pos he]
        unfold fcGet
        rw [if_neg (Ne.symm h), if_neg h2]
        exact ih
      · simp only [fcReplace, List.map_cons, if_neg he]
        unfold fcGet
        by_cases hk : e.1 = k'
        · rw [if_pos hk, if_pos hk]
        · rw [if_neg hk, if_neg hk]
          exact ih

theorem fcGet_append_single_ne (fc : FilesCache) (k k' : String)
    (v : List ICacheItem) (h : k' ≠ k) :
    fcGet (fc ++ [(k, v)]) k' = fcGet fc k' := by
  induction fc with
  | nil => simp [fcGet, Ne.symm h]
  | cons e rest ih =>
      unfold fcGet
      by_cases hk : e.1 = k'
      · rw [List.cons_append, if_pos hk]
        simp [fcGet, hk]
      · rw [List.cons_append]
        simp only [fcGet, if_neg hk]
        exact ih

theorem fcGet_fcSet_ne (fc : FilesCache) (k k' : String)
    (v : List ICacheItem) (h : k' ≠ k) :
    fcGet (fcSet fc k v) k' = fcGet fc k' := by
  unfold fcSet
  by_cases hh : fcHas fc k
  · rw [if_pos hh]
    exact fcGet_fcReplace_ne fc k k' v h
  · rw [if_neg hh]
    exact fcGet_append_single_ne fc k k' v h

/-- Erasing, one by one, every element of a collected match list from a list
whose head does not match keeps the head in place. -/
theorem foldl_erase_cons_of_not {α : Type} [DecidableEq α] (p : α → Bool)
    (x : α) (hx : p x = false) :
    ∀ (ts xs : List α), (∀ t ∈ ts, p t = true) →
      ts.foldl (fun acc a => acc.erase a) (x :: xs)
        = x :: ts.foldl (fun acc a => acc.erase a) xs := by
  intro ts
  induction ts with
  | nil => intro xs _; rfl
  | cons t ts' ih =>
      intro xs hmem
      have hpt : p t = true := hmem t (List.mem_cons_self t ts')
      have hne : ¬ (x == t) = true := by
        intro hbe
        have hxt : x = t := by simpa using hbe
        rw [hxt] at hx
        rw [hx] at hpt
        exact Bool.false_ne_true hpt
      simp only [List.foldl_cons]
      rw [List.erase_cons_tail hne]
      exact ih (xs.erase t) (fun u hu => hmem u (List.mem_cons_of_mem t hu))

/-- Erasing, one by one, every element of `l` that satisfies `p` (collected in
order, as the two-phase remove loops in the source do) leaves exactly the
elements that do not satisfy `p`. -/
theorem foldl_erase_filter {α : Type} [DecidableEq α] (p : α → Bool)
    (l : List α) :
    (l.filter p).foldl (fun acc a => acc.erase a) l
      = l.filter (fun a => !p a) := by
  induction l with
  | nil => rfl
  | cons x xs ih =>
      by_cases hp : p x = true
      · rw [List.filter_cons_of_pos hp]
        simp only [List.foldl_cons, List.erase_cons_head]
        rw [ih]
        have hnp : ((fun a => !p a) x) = false := by simp [hp]
        rw [List.filter_cons_of_neg (by simp [hnp])]
      · have hp' : p x = false := by simpa using hp
        rw [List.filter_cons_of_neg (by simp [hp'])]
        rw [foldl_erase_cons_of_not p x hp' (xs.filter p) xs
          (fun t ht => (List.mem_filter.mp ht).2)]
        rw [ih]
        simp [List.filter_cons, hp']


theorem addFileToCache_get_some (gwf : Uri → Option WorkspaceFolder)
    (fc : FilesCache) (a : String) (u : Uri) (f : WorkspaceFolder)
    (h : gwf u = some f) :
    fcGet (addFileToCache gwf fc a u) a = some (fcItems fc a ++ [⟨u, f⟩]) := by
  simp only [addFileToCache]
  cases hA : fcGet fc a with
  | none =>
      simp only [hA, Option.isNone_none, if_true, fcGet_fcSet_self, h]
      simp [fcGet_fcSet_self, fcItems, hA]
  | some tc =>
      simp only [hA, Option.isNone_some, if_false, h]
      simp [hA, fcGet_fcSet_self, fcItems]

theorem addFileToCache_none_frame (gwf : Uri → Option WorkspaceFolder)
    (fc : FilesCache) (a : String) (u : Uri) (h : gwf u = none) (k : String) :
    fcItems (addFileToCache gwf fc a u) k = fcItems fc k := by
  simp only [addFileToCache]
  cases hA : fcGet fc a with
  | none =>
      simp only [hA, Option.isNone_none, if_true, fcGet_fcSet_self, h]
      by_cases hk : k = a
      · subst hk
        simp [fcItems, fcGet_fcSet_self, hA]
      · simp [fcItems, fcGet_fcSet_ne fc a k [] (by exact hk), hA]
  | some tc =>
      simp only [hA, Option.isNone_some, if_false, h]
      simp [hA]

/-- C9: `removeFileFromCache(taskAlias, uri)` removes from the set stored
under `taskAlias` exactly the items whose `uri.fsPath` equals the given
uri's `fsPath` (every other item of that set stays), leaves the set under
every other key unchanged, and is a no-op when no set exists for
`taskAlias`. -/
theorem C9_removeFileFromCache_frame :
    ∀ (fc : FilesCache) (taskAlias : String) (uri : Uri),
    fcGet (removeFileFromCache fc taskAlias uri) taskAlias
      = (fcGet fc taskAlias).map
          (List.filter (fun it => !(it.uri.fsPath == uri.fsPath)))
    ∧ (∀ k, k ≠ taskAlias →
        fcGet (removeFileFromCache fc taskAlias uri) k = fcGet fc k)
    ∧ (fcGet fc taskAlias = none → removeFileFromCache fc taskAlias uri = fc) := by
  intro fc a u
  cases h : fcGet fc a with
  | none =>
      refine ⟨?_, ?_, ?_⟩
      · simp [removeFileFromCache, h]
      · intro k _; simp [removeFileFromCache, h]
      · intro _; simp [removeFileFromCache, h]
  | some itemCache =>
      refine ⟨?_, ?_, ?_⟩
      · simp only [removeFileFromCache, h]
        rw [fcGet_fcSet_self]
        rw [foldl_erase_filter (fun it => it.uri.fsPath == u.fsPath) itemCache]
        simp
      · intro k hk
        simp only [removeFileFromCache, h]
        exact fcGet_fcSet_ne fc a k _ hk
      · intro hn; exact Option.noConfusion hn

/-- Witness for C9 at concrete inputs: a frame key and the absent-set
no-op. -/
theorem C9_witness :
    fcGet (removeFileFromCache fcW "script" uW1) "npm" = fcGet fcW "npm"
    ∧ removeFileFromCache [("x", [])] "script" uW1 = [("x", [])] :=
  ⟨(C9_removeFileFromCache_frame fcW "script" uW1).2.1 "npm" (by decide),
   (C9_removeFileFromCache_frame [("x", [])] "script" uW1).2.2 (by decide)⟩

/-- C6: `addFileToCache(taskAlias, uri)` creates the set for `taskAlias` if
absent and inserts the item pairing the uri with its owning workspace folder
only when that folder exists; for a uri with no owning folder the membership
of every cache set is unchanged. -/
theorem C6_addFileToCache_pairs :
    ∀ (gwf : Uri → Option WorkspaceFolder) (fc : FilesCache)
      (taskAlias : String) (uri : Uri),
    (∀ f, gwf uri = some f →
        fcGet (addFileToCache gwf fc taskAlias uri) taskAlias
          = some (fcItems fc taskAlias ++ [⟨uri, f⟩]))
    ∧ (gwf uri = none →
        (fcGet (addFileToCache gwf fc taskAlias uri) taskAlias).isSome = true
        ∧ ∀ k, fcItems (addFileToCache gwf fc taskAlias uri) k = fcItems fc k) := by
  intro gwf fc a u
  constructor
  · intro f h
    exact addFileToCache_get_some gwf fc a u f h
  · intro h
    constructor
    · simp only [addFileToCache]
      cases hA : fcGet fc a with
      | none => simp [hA, h, fcGet_fcSet_self]
      | some tc => simp [hA, h]
    · intro k
      exact addFileToCache_none_frame gwf fc a u h k

/-- Witness for C6 at concrete inputs: the inserted pair and the no-folder
frame. -/
theorem C6_witness :
    fcGet (addFileToCache gwfW [] "pipenv" uW1) "pipenv" = some [⟨uW1, wfW⟩]
    ∧ fcItems (addFileToCache (fun _ => none) [] "pipenv" uW1) "pipenv"
        = fcItems ([] : FilesCache) "pipenv" :=
  ⟨by
      have h := (C6_addFileToCache_pairs gwfW [] "pipenv" uW1).1 wfW (by decide)
      simpa using h,
   ((C6_addFileToCache_pairs (fun _ => none) [] "pipenv" uW1).2 rfl).2 "pipenv"⟩

/-- C1 as stated is false on the code: every insertion creates a fresh
`ICacheItem` object and a JS `Set` deduplicates by object identity only, so
adding a file whose URI string is already present in the set for that key
changes the set's membership (it appends a duplicate item). -/
theorem C1_counterexample :
    fcGet (addFileToCache gwfW (addFileToCache gwfW [] "pipenv" uW1) "pipenv" uW1)
        "pipenv"
      ≠ fcGet (addFileToCache gwfW [] "pipenv" uW1) "pipenv" := by decide

/-- C1 (amended): for every task-type key, insertions into the set stored
under that key deduplicate by item object identity only; after any sequence
of `buildCache` / `addFileToCache` operations, adding a file whose owning
workspace folder exists appends one fresh item to that key's set — even when
an item with the same URI string is already present — so the set grows by
exactly one item. -/
theorem C1_amended_add_appends :
    ∀ (gwf : Uri → Option WorkspaceFolder) (fc : FilesCache)
      (taskAlias : String) (uri : Uri) (f : WorkspaceFolder),
      gwf uri = some f →
      fcGet (addFileToCache gwf fc taskAlias uri) taskAlias
        = some (fcItems fc taskAlias ++ [⟨uri, f⟩])
      ∧ (fcItems (addFileToCache gwf fc taskAlias uri) taskAlias).length
        = (fcItems fc taskAlias).length + 1 := by
  intro gwf fc a u f h
  have hg := addFileToCache_get_some gwf fc a u f h
  refine ⟨hg, ?_⟩
  simp [fcItems, hg]

/-- Witness for C1's amended statement: re-adding an already-present URI
appends a second item. -/
theorem C1_amended_witness :
    fcGet (addFileToCache gwfW (addFileToCache gwfW [] "pipenv" uW1) "pipenv" uW1)
        "pipenv"
      = some [⟨uW1, wfW⟩, ⟨uW1, wfW⟩] := by
  have h := (C1_amended_add_appends gwfW (addFileToCache gwfW [] "pipenv" uW1)
    "pipenv" uW1 wfW (by decide)).1
  rw [h]
  decide

theorem waitForCacheGo_spec (trace : Nat → CacheState) :
    ∀ (fuel i n : Nat) (sleeps : List Nat),
      waitForCacheGo trace i fuel = some (n, sleeps) →
      i ≤ n ∧ cacheFlagsBusy (trace n) = false
        ∧ (∀ m, i ≤ m → m < n → cacheFlagsBusy (trace m) = true)
        ∧ sleeps = List.replicate (n - i) 100 := by
  intro fuel
  induction fuel with
  | zero =>
      intro i n sleeps h
      by_cases hb : cacheFlagsBusy (trace i) = true
      · simp [waitForCacheGo, hb] at h
      · have hb' : cacheFlagsBusy (trace i) = false := by simpa using hb
        simp only [waitForCacheGo, hb', Bool.false_eq_true, if_false] at h
        obtain ⟨hn, hs⟩ := Prod.mk.injEq .. ▸ Option.some.injEq .. ▸ h
        subst hn; subst hs
        exact ⟨Nat.le_refl i, hb', fun m him hmi => absurd hmi (by omega), by simp⟩
  | succ fuel ih =>
      intro i n sleeps h
      by_cases hb : cacheFlagsBusy (trace i) = true
      · simp only [waitForCacheGo, hb, if_true] at h
        obtain ⟨r, hr, hmap⟩ := Option.map_eq_some'.mp h
        obtain ⟨hn, hs⟩ := Prod.mk.injEq .. ▸ hmap
        obtain ⟨hle, hbf, hall, hsl⟩ := ih (i + 1) r.1 r.2 hr
        subst hn
        refine ⟨by omega, hbf, ?_, ?_⟩
        · intro m him hmi
          rcases Nat.eq_or_lt_of_le him with hmi' | hlt
          · rw [← hmi']; exact hb
          · exact hall m hlt hmi
        · rw [← hs, hsl]
          have hrep : r.1 - i = (r.1 - (i + 1)) + 1 := by omega
          rw [hrep]
          rfl
      · have hb' : cacheFlagsBusy (trace i) = false := by simpa using hb
        simp only [waitForCacheGo, hb', Bool.false_eq_true, if_false] at h
        obtain ⟨hn, hs⟩ := Prod.mk.injEq .. ▸ Option.some.injEq .. ▸ h
        subst hn; subst hs
        exact ⟨Nat.le_refl i, hb', fun m him hmi => absurd hmi (by omega), by simp⟩

/-- C5: `waitForCache` is a polling loop that returns only in a state where
both `cacheBuilding` and `folderCaching` are false; it sleeps the fixed
100 ms timeout once per poll while either flag is true, and (structurally:
its model consumes a state trace and produces no state) modifies neither the
cache nor the flags. -/
theorem C5_waitForCache :
    ∀ (trace : Nat → CacheState) (fuel n : Nat) (sleeps : List Nat),
      waitForCacheGo trace 0 fuel = some (n, sleeps) →
      (trace n).cacheBuilding = false ∧ (trace n).folderCaching = false
      ∧ (∀ m < n, cacheFlagsBusy (trace m) = true)
      ∧ sleeps = List.replicate n 100 := by
  intro trace fuel n sleeps h
  obtain ⟨_, hbf, hall, hsl⟩ := waitForCacheGo_spec trace fuel 0 n sleeps h
  have hflags := Bool.or_eq_false_iff.mp (by simpa [cacheFlagsBusy] using hbf)
  exact ⟨hflags.1, hflags.2,
    fun m hm => hall m (Nat.zero_le m) hm, by simpa using hsl⟩

/-- Witness for C5: with the fixture trace (busy for two polls), the loop
returns after exactly two 100 ms sleeps in the idle state. -/
theorem C5_witness :
    (traceW 2).cacheBuilding = false ∧ (traceW 2).folderCaching = false
    ∧ (∀ m < 2, cacheFlagsBusy (traceW m) = true)
    ∧ [100, 100] = List.replicate 2 100 :=
  C5_waitForCache traceW 5 2 [100, 100] (by decide)

/-- C7: the pipenv parser is a thin TOML lookup: for a uri owned by a
workspace folder, `readUriTasks` returns exactly one `Task` per script of
the `[scripts]` section of the Pipfile at that uri, named after its script,
with source `pipenv` and group `Build`, in document order; with no owning
folder or no scripts section it returns the empty list. -/
theorem C7_pipenv_readUriTasks :
    ∀ (env : ProviderEnv) (uri : Uri),
    (∀ folder, env.getWorkspaceFolder uri = some folder →
        PipenvTaskProvider.readUriTasks env uri
          = (PipenvTaskProvider.findTargets env uri.fsPath).map
              (fun s => { PipenvTaskProvider.createTask env s s folder uri with
                           group := some TaskGroupM.Build })
        ∧ (PipenvTaskProvider.readUriTasks env uri).map TaskM.name
            = PipenvTaskProvider.findTargets env uri.fsPath
        ∧ ∀ t ∈ PipenvTaskProvider.readUriTasks env uri,
            t.source = "pipenv" ∧ t.group = some TaskGroupM.Build)
    ∧ (env.getWorkspaceFolder uri = none →
        PipenvTaskProvider.readUriTasks env uri = [])
    ∧ ((env.readToml (env.readFileSync uri.fsPath)).bind TomlResult.scripts
          = none →
        PipenvTaskProvider.readUriTasks env uri = []) := by
  intro env uri
  refine ⟨?_, ?_, ?_⟩
  · intro folder h
    refine ⟨?_, ?_, ?_⟩
    · simp [PipenvTaskProvider.readUriTasks, h]
    · simp only [PipenvTaskProvider.readUriTasks, h]
      rw [List.map_map]
      exact List.map_id' _
    · intro t ht
      simp only [PipenvTaskProvider.readUriTasks, h] at ht
      obtain ⟨s, _, rfl⟩ := List.mem_map.mp ht
      exact ⟨rfl, rfl⟩
  · intro h
    simp [PipenvTaskProvider.readUriTasks, h]
  · intro h
    have hft : PipenvTaskProvider.findTargets env uri.fsPath = [] := by
      simp [PipenvTaskProvider.findTargets, h]
    cases hg : env.getWorkspaceFolder uri with
    | none => simp [PipenvTaskProvider.readUriTasks, hg]
    | some folder => simp [PipenvTaskProvider.readUriTasks, hg, hft]

/-- Witness for C7 at the fixture env: two scripts produce two build tasks
named after the scripts; the scriptless Pipfile produces none. -/
theorem C7_witness :
    (PipenvTaskProvider.readUriTasks envPW uW1).map TaskM.name = ["hello", "world"]
    ∧ PipenvTaskProvider.readUriTasks envPW2 uW1 = [] := by
  constructor
  · have h := ((C7_pipenv_readUriTasks envPW uW1).1 wfW rfl).2.1
    rw [h]
    rfl
  · exact (C7_pipenv_readUriTasks envPW2 uW1).2.2 rfl

theorem readTasksGo_calls (env : ProviderEnv) (chk : Bool) :
    ∀ (items : List ICacheItem) (visited : List String),
      (TaskExplorerProvider.readTasksGo env chk items visited).2
        = dedupByFirst visited
            (items.filter (TaskExplorerProvider.eligItem env chk)) := by
  intro items
  induction items with
  | nil => intro visited; rfl
  | cons it rest ih =>
      intro visited
      cases hex : env.isExcluded it.uri.path <;>
        by_cases hvc : it.uri.fsPath ∈ visited <;>
          cases hpe : (!chk || env.pathExists it.uri.fsPath) <;>
            simp [TaskExplorerProvider.readTasksGo, TaskExplorerProvider.eligItem,
              List.filter_cons, dedupByFirst, hex, hvc, hpe, ih]

theorem readTasksGo_tasks (env : ProviderEnv) (chk : Bool) :
    ∀ (items : List ICacheItem) (visited : List String),
      (TaskExplorerProvider.readTasksGo env chk items visited).1
        = ((TaskExplorerProvider.readTasksGo env chk items visited).2).flatMap
            (fun it => env.readUriTasksF it.uri) := by
  intro items
  induction items with
  | nil => intro visited; rfl
  | cons it rest ih =>
      intro visited
      cases hex : env.isExcluded it.uri.path <;>
        by_cases hvc : it.uri.fsPath ∈ visited <;>
          cases hpe : (!chk || env.pathExists it.uri.fsPath) <;>
            simp [TaskExplorerProvider.readTasksGo, hex, hvc, hpe, ih]

theorem dedupByFirst_nodup :
    ∀ (l : List ICacheItem) (seen : List String),
      ((dedupByFirst seen l).map (fun it => it.uri.fsPath)).Nodup
      ∧ ∀ x ∈ (dedupByFirst seen l).map (fun it => it.uri.fsPath), x ∉ seen := by
  intro l
  induction l with
  | nil => intro seen; exact ⟨by simp [dedupByFirst], by simp [dedupByFirst]⟩
  | cons it rest ih =>
      intro seen
      by_cases hvc : it.uri.fsPath ∈ seen
      · simpa [dedupByFirst, hvc] using ih seen
      · obtain ⟨hnd, hns⟩ := ih (it.uri.fsPath :: seen)
        simp only [dedupByFirst]
        rw [if_neg (by simpa using hvc)]
        simp only [List.map_cons]
        constructor
        · rw [List.nodup_cons]
          refine ⟨?_, hnd⟩
          intro hmem
          have hx := hns _ hmem
          simp at hx
        · intro x hx
          rcases List.mem_cons.mp hx with hx1 | hx2
          · rw [hx1]; exact hvc
          · have hx3 := hns x hx2
            exact fun hcon => hx3 (List.mem_cons_of_mem _ hcon)

theorem dedupByFirst_subset :
    ∀ (l : List ICacheItem) (seen : List String) (it : ICacheItem),
      it ∈ dedupByFirst seen l → it ∈ l := by
  intro l
  induction l with
  | nil => intro seen it h; exact absurd h (by simp [dedupByFirst])
  | cons a rest ih =>
      intro seen it h
      by_cases hvc : a.uri.fsPath ∈ seen
      · simp only [dedupByFirst] at h
        rw [if_pos (by simpa using hvc)] at h
        exact List.mem_cons_of_mem a (ih seen it h)
      · simp only [dedupByFirst] at h
        rw [if_neg (by simpa using hvc)] at h
        rcases List.mem_cons.mp h with h1 | h2
        · rw [h1]; exact List.mem_cons_self a rest
        · exact List.mem_cons_of_mem a (ih _ it h2)

/-- C10: within a single `readTasks` call, each distinct `fsPath` in the
provider's cache set is processed at most once: the visited set makes the
list of items for which `readUriTasks` is invoked duplicate-free per
`fsPath` (first occurrence wins, even when the set holds several distinct
items for the same URI), the returned task list is exactly the concatenation
of `readUriTasks` over those items, and excluded paths — and, in the base
class (`chk = true`), nonexistent paths — contribute no tasks. -/
theorem C10_readTasks_dedup :
    ∀ (env : ProviderEnv) (chk : Bool) (items : List ICacheItem),
      (((TaskExplorerProvider.readTasksGo env chk items []).2).map
          (fun it => it.uri.fsPath)).Nodup
      ∧ (TaskExplorerProvider.readTasksGo env chk items []).1
          = ((TaskExplorerProvider.readTasksGo env chk items []).2).flatMap
              (fun it => env.readUriTasksF it.uri)
      ∧ (TaskExplorerProvider.readTasksGo env chk items []).2
          = dedupByFirst []
              (items.filter (TaskExplorerProvider.eligItem env chk))
      ∧ ∀ it ∈ (TaskExplorerProvider.readTasksGo env chk items []).2,
          env.isExcluded it.uri.path = false
          ∧ (chk = true → env.pathExists it.uri.fsPath = true) := by
  intro env chk items
  have hcalls := readTasksGo_calls env chk items []
  refine ⟨?_, readTasksGo_tasks env chk items [], hcalls, ?_⟩
  · rw [hcalls]
    exact (dedupByFirst_nodup
      (items.filter (TaskExplorerProvider.eligItem env chk)) []).1
  · intro it hit
    rw [hcalls] at hit
    have hmem := dedupByFirst_subset _ [] it hit
    have helig := (List.mem_filter.mp hmem).2
    have h2 : env.isExcluded it.uri.path = false
        ∧ (chk = false ∨ env.pathExists it.uri.fsPath = true) := by
      simpa [TaskExplorerProvider.eligItem] using helig
    refine ⟨h2.1, ?_⟩
    intro hchk
    rcases h2.2 with h3 | h3
    · rw [hchk] at h3; exact absurd h3 (by simp)
    · exact h3

/-- Witness for C10: a cache set holding the same uri twice yields a
duplicate-free call list matching the first-occurrence dedup. -/
theorem C10_witness :
    ((((TaskExplorerProvider.readTasksGo envPW true
        [⟨uW1, wfW⟩, ⟨uW1, wfW⟩, ⟨uW2, wfW⟩] []).2).map
          (fun it => it.uri.fsPath)).Nodup)
    ∧ (TaskExplorerProvider.readTasksGo envPW true
        [⟨uW1, wfW⟩, ⟨uW1, wfW⟩, ⟨uW2, wfW⟩] []).2
        = dedupByFirst []
            ([⟨uW1, wfW⟩, ⟨uW1, wfW⟩, ⟨uW2, wfW⟩].filter
              (TaskExplorerProvider.eligItem envPW true)) :=
  ⟨(C10_readTasks_dedup envPW true [⟨uW1, wfW⟩, ⟨uW1, wfW⟩, ⟨uW2, wfW⟩]).1,
   (C10_readTasks_dedup envPW true [⟨uW1, wfW⟩, ⟨uW1, wfW⟩, ⟨uW2, wfW⟩]).2.2.1⟩

theorem invalidateBody_none (env : ProviderEnv) (providerName : String)
    (st1 : TaskExplorerProvider.State) (fc : FilesCache) (uriOpt : Option Uri)
    (h : st1.cachedTasks = none) :
    TaskExplorerProvider.invalidateBody env providerName st1 fc uriOpt
      = (st1, fc) := by
  cases uriOpt <;> simp [TaskExplorerProvider.invalidateBody, h]

theorem invalidateGo_preserves_none (env : ProviderEnv) (providerName : String) :
    ∀ (fuel : Nat) (st : TaskExplorerProvider.State) (fc : FilesCache)
      (uriOpt : Option Uri),
      st.cachedTasks = none →
      ((TaskExplorerProvider.invalidateGo env providerName fuel st fc
          uriOpt).1).cachedTasks = none := by
  intro fuel
  induction fuel with
  | zero =>
      intro st fc uriOpt h
      simpa [TaskExplorerProvider.invalidateGo] using h
  | succ fuel ih =>
      intro st fc uriOpt h
      by_cases hpush : (uriOpt.isSome && st.invalidating) = true
      · simp [TaskExplorerProvider.invalidateGo, hpush, h]
      · have hpush' : (uriOpt.isSome && st.invalidating) = false := by
          simpa using hpush
        have hb := invalidateBody_none env providerName
          { st with invalidating := true } fc uriOpt (by simpa using h)
        simp only [TaskExplorerProvider.invalidateGo, hpush',
          Bool.false_eq_true, if_false, hb]
        cases hq : st.queue with
        | nil => simpa [hq] using h
        | cons u restQ =>
            simp only [hq]
            exact ih _ _ _ (by simpa using h)

/-- C8: the provider base class keeps a per-task-type cached task list:
`provideTasks` invokes `readTasks` only when `cachedTasks` is undefined and
otherwise returns the stored list without re-reading files (third component
records whether `readTasks` ran); `invalidate` with no uri sets
`cachedTasks` to undefined, so the next `provideTasks` recomputes. -/
theorem C8_provider_cache :
    ∀ (env : ProviderEnv) (fc : FilesCache) (providerName : String)
      (st : TaskExplorerProvider.State),
    (∀ ts, st.cachedTasks = some ts →
        TaskExplorerProvider.provideTasks env fc providerName st = (ts, st, false))
    ∧ (st.cachedTasks = none →
        TaskExplorerProvider.provideTasks env fc providerName st
          = (TaskExplorerProvider.readTasks env fc providerName,
             { st with
                 cachedTasks :=
                   some (TaskExplorerProvider.readTasks env fc providerName) },
             true))
    ∧ (∀ fuel, 0 < fuel →
        ((TaskExplorerProvider.invalidateGo env providerName fuel st fc
            none).1).cachedTasks = none) := by
  intro env fc pn st
  refine ⟨?_, ?_, ?_⟩
  · intro ts h; simp [TaskExplorerProvider.provideTasks, h]
  · intro h; simp [TaskExplorerProvider.provideTasks, h]
  · intro fuel hf
    cases fuel with
    | zero => omega
    | succ fuel =>
        have hpush : ((none : Option Uri).isSome && st.invalidating) = false := by
          simp
        cases hct : st.cachedTasks with
        | none =>
            have hb := invalidateBody_none env pn
              { st with invalidating := true } fc none (by simpa using hct)
            simp only [TaskExplorerProvider.invalidateGo, hpush,
              Bool.false_eq_true, if_false, hb]
            cases hq : st.queue with
            | nil => simpa [hq] using hct
            | cons u restQ =>
                simp only [hq]
                exact invalidateGo_preserves_none env pn fuel _ _ _
                  (by simpa using hct)
        | some ct =>
            have hb : TaskExplorerProvider.invalidateBody env pn
                { st with invalidating := true } fc none
                = ({ st with invalidating := true, cachedTasks := none }, fc) := by
              simp [TaskExplorerProvider.invalidateBody, hct]
            simp only [TaskExplorerProvider.invalidateGo, hpush,
              Bool.false_eq_true, if_false, hb]
            cases hq : st.queue with
            | nil => simp [hq]
            | cons u restQ =>
                simp only [hq]
                exact invalidateGo_preserves_none env pn fuel _ _ _ (by simp)

/-- Witness for C8: a provider with a stored list returns it unchanged; an
empty one computes and stores; invalidate with no uri drops the list. -/
theorem C8_witness :
    TaskExplorerProvider.provideTasks envPW [] "pipenv" ⟨some [], false, []⟩
      = ([], ⟨some [], false, []⟩, false)
    ∧ ((TaskExplorerProvider.invalidateGo envPW "pipenv" 1
        ⟨some [], false, []⟩ [] none).1).cachedTasks = none :=
  ⟨(C8_provider_cache envPW [] "pipenv" ⟨some [], false, []⟩).1 [] rfl,
   (C8_provider_cache envPW [] "pipenv" ⟨some [], false, []⟩).2.2 1 (by decide)⟩

/-- C2: `rebuildCache` rebuilds the file cache wholesale: it first clears the
`filesCache` map and then repopulates it by scanning the entire workspace
(`addFolderToCache` with an undefined folder), so the resulting cache
contents do not depend on the cache contents that existed before the call
(two starting states differing only in `filesCache` yield the same final
`filesCache`). -/
theorem C2_rebuildCache_wholesale :
    ∀ (env : CacheEnv) (ext : Nat → Bool) (s : CacheState),
      rebuildCache env ext s
        = addFolderToCache env ext none { s with filesCache := [] }
      ∧ ∀ fc' : FilesCache,
          (rebuildCache env ext { s with filesCache := fc' }).filesCache
            = (rebuildCache env ext s).filesCache := by
  intro env ext s
  exact ⟨rfl, fun fc' => rfl⟩

/-- Witness for C2: rebuilding from a polluted cache and from the fixture
state gives the same cache contents. -/
theorem C2_witness :
    (rebuildCache envCW extW { idleW with filesCache := fcW }).filesCache
      = (rebuildCache envCW extW idleW).filesCache :=
  (C2_rebuildCache_wholesale envCW extW idleW).2 fcW

/-- C4: `isCachingBusy` returns true iff at least one of `cacheBuilding` and
`folderCaching` is true, and `addFolderToCache` sets both flags before
scanning any provider and clears both flags and the cancel flag before it
returns, cancelled or not. -/
theorem C4_busy_flags :
    (∀ s : CacheState, isCachingBusy s = true ↔
        (s.cacheBuilding = true ∨ s.folderCaching = true))
    ∧ ∀ (env : CacheEnv) (ext : Nat → Bool) (folder : Option WorkspaceFolder)
        (s : CacheState),
        addFolderToCache env ext folder s
          = addFolderToCacheExit
              (providerLoop env ext env.taskProviders folder
                (addFolderToCacheEntry s))
        ∧ (addFolderToCacheEntry s).cacheBuilding = true
        ∧ (addFolderToCacheEntry s).folderCaching = true
        ∧ (addFolderToCache env ext folder s).cacheBuilding = false
        ∧ (addFolderToCache env ext folder s).folderCaching = false
        ∧ (addFolderToCache env ext folder s).cancel = false := by
  constructor
  · intro s
    simp [isCachingBusy]
  · intro env ext folder s
    exact ⟨rfl, rfl, rfl, rfl, rfl, rfl⟩

/-- Witness for C4: the busy fixture state is busy, and a full
`addFolderToCache` run from the idle fixture ends with all flags clear. -/
theorem C4_witness :
    (isCachingBusy busyW = true ↔
      (busyW.cacheBuilding = true ∨ busyW.folderCaching = true))
    ∧ (addFolderToCache envCW extW none idleW).cacheBuilding = false
    ∧ (addFolderToCache envCW extW none idleW).cancel = false :=
  ⟨C4_busy_flags.1 busyW,
   (C4_busy_flags.2 envCW extW none idleW).2.2.2.1,
   (C4_busy_flags.2 envCW extW none idleW).2.2.2.2.2⟩

theorem scanPaths_cancelled (env : CacheEnv) (ext : Nat → Bool) (setCB : Bool)
    (folder : WorkspaceFolder) :
    ∀ (paths : List Uri) (k : Nat) (fC : List ICacheItem) (s : CacheState),
      k < paths.length →
      effCancelBy ext s k = true →
      (∀ j < k, effCancelBy ext s j = false) →
      scanPaths env ext setCB folder paths fC s
        = (fC ++ eligAdds env folder (paths.take k),
           cancelInternal setCB
             { s with cancel := true, tick := s.tick + (k + 1) }, true) := by
  intro paths
  induction paths with
  | nil =>
      intro k fC s hk _ _
      exact absurd hk (by simp)
  | cons p rest ih =>
      intro k fC s hk hc hlow
      cases k with
      | zero =>
          have hc0 : (s.cancel || ext s.tick) = true := by
            simpa [effCancelBy, extAny] using hc
          simp [scanPaths, readCancel, hc0, eligAdds]
      | succ k =>
          have h0 := hlow 0 (Nat.succ_pos k)
          have hc0 : (s.cancel || ext s.tick) = false := by
            simpa [effCancelBy, extAny] using h0
          obtain ⟨hsc, hext⟩ := Bool.or_eq_false_iff.mp hc0
          have hk' : k < rest.length := by simpa using hk
          have hshift : ∀ j,
              effCancelBy ext { s with cancel := false, tick := s.tick + 1 } j
                = effCancelBy ext s (j + 1) := by
            intro j
            simp [effCancelBy, extAny, hsc, hext]
          have hc' : effCancelBy ext
              { s with cancel := false, tick := s.tick + 1 } k = true := by
            rw [hshift]; exact hc
          have hlow' : ∀ j < k, effCancelBy ext
              { s with cancel := false, tick := s.tick + 1 } j = false := by
            intro j hj
            rw [hshift]
            exact hlow (j + 1) (by omega)
          have ht : s.tick + 1 + (k + 1) = s.tick + (k + 1 + 1) := by omega
          cases hexc : env.isExcluded p.path with
          | false =>
              simp only [scanPaths, readCancel, hc0, Bool.false_eq_true,
                if_false, hexc, Bool.not_false, if_true]
              rw [ih k (fC ++ [ICacheItem.mk p folder]) _ hk' hc' hlow']
              simp only [List.take_succ_cons, eligAdds, hexc, Bool.not_false,
                if_true]
              rw [ht]
              simp
          | true =>
              simp only [scanPaths, readCancel, hc0, Bool.false_eq_true,
                if_false, hexc, Bool.not_true, if_false]
              rw [ih k fC _ hk' hc' hlow']
              simp [eligAdds, hexc, ht]

/-- C3: the file-system scan is cancelable: when the cancel flag (set by a
concurrent `cancelBuildCache`, modelled by the oracle `ext`) is first
observed at the k-th file of a folder scan, the path loop of
`buildFolderCache` has added only the non-excluded files before that point,
runs `cancelInternal` and returns early, adding no further files; and
`cancelBuildCache` is a no-op that never sets the cancel flag when no cache
build is in progress (`cacheBuilding` false). -/
theorem C3_cancelable :
    (∀ s : CacheState, s.cacheBuilding = false → cancelBuildCache s = s)
    ∧ ∀ (env : CacheEnv) (ext : Nat → Bool) (setCB : Bool)
        (folder : WorkspaceFolder) (paths : List Uri) (k : Nat)
        (fC : List ICacheItem) (s : CacheState),
        k < paths.length →
        effCancelBy ext s k = true →
        (∀ j < k, effCancelBy ext s j = false) →
        scanPaths env ext setCB folder paths fC s
          = (fC ++ eligAdds env folder (paths.take k),
             cancelInternal setCB
               { s with cancel := true, tick := s.tick + (k + 1) }, true) := by
  constructor
  · intro s h
    simp [cancelBuildCache, h]
  · intro env ext setCB folder paths k fC s hk hc hlow
    exact scanPaths_cancelled env ext setCB folder paths k fC s hk hc hlow

/-- Witness for C3: with a cancel write landing at the second read, the scan
adds only the first file and returns early; `cancelBuildCache` on the idle
fixture state changes nothing. -/
theorem C3_witness :
    scanPaths envCW extW false wfW [uW1, uW2] [] idleW
      = ([⟨uW1, wfW⟩],
         cancelInternal false
           { idleW with cancel := true, tick := idleW.tick + 2 },
         true)
    ∧ cancelBuildCache idleW = idleW := by
  constructor
  · have h := C3_cancelable.2 envCW extW false wfW [uW1, uW2] 1 [] idleW
      (by decide) (by decide) (by decide)
    rw [h]
    rfl
  · exact C3_cancelable.1 idleW (by decide)
